import Mathlib

/-!
Verification development for the funding-then-spam engine in `src/main.rs` of
the blob-spamming load tool.  The Rust program is embedded shallowly: network
and other fallible operations are represented by oracles (`Except`-valued
inputs), machine-integer arithmetic (`u8`) is modelled over `Nat` with explicit
overflow handling, and the control flow of `main` is translated into pure Lean
functions that additionally record the network calls they perform.
-/

namespace Blobssss

/-- Command-line arguments (`struct Args`, src/main.rs lines 17-28).
`min` and `max` are `u8` values; `keyValid` abstracts whether the funder
secret key hex-decodes and parses (lines 44-49); `numRpcs` is the number of
configured RPC endpoints (line 20-21). -/
structure Args where
  numRpcs : Nat
  keyValid : Bool
  min : Nat
  max : Nat
deriving DecidableEq

/-- Network calls the startup path of `main` can perform, in program order:
`get_balance` (line 56), `get_transaction_count` (line 57), `get_chain_id`
(line 60), `send_tx_envelope` for funding transfer `k` (line 86), and the
`join_all` confirmation wait for transfer `k` (lines 89-92). -/
inductive NetCall
  | getBalance
  | getTxCount
  | getChainId
  | sendTx (k : Nat)
  | awaitConfirm (k : Nat)
deriving DecidableEq

/-- Oracle giving the results of the external fallible operations that `main`
performs during startup and funding: the three startup queries, the blob
sidecar build (line 70), and per funding transfer `k` the transaction
build/sign (line 84-85), the submission (line 86), and the on-ledger
confirmation (lines 89-92). -/
structure NetOracle where
  balance : Except Unit Nat
  txCount : Except Unit Nat
  chainId : Except Unit Nat
  sidecarOk : Except Unit Unit
  fundBuild : Nat → Except Unit Unit
  fundSend : Nat → Except Unit Unit
  fundConfirm : Nat → Except Unit Unit

/-- How a run of `main`'s startup-and-funding section ends.  Error outcomes
correspond to early `return Err` / `?` propagation / panics in the Rust code;
`spamStarted` means control reached the spam loop at line 97, carrying the
computed per-account share and the funder's final local nonce. -/
inductive MainOutcome
  | configError
  | keyError
  | emptyRpcsPanic
  | balanceError
  | txCountError
  | chainIdError
  | overflowPanic
  | sidecarError
  | fundBuildError (k : Nat)
  | fundSendError (k : Nat)
  | fundConfirmError
  | spamStarted (share finalNonce : Nat)
deriving DecidableEq

/-- A funding transfer as issued by the loop at lines 73-88: recipient child
account index, nonce used, and transferred value. -/
structure FundTx where
  toAccount : Nat
  nonce : Nat
  value : Nat
deriving DecidableEq

/-- Checked `u8` addition, the debug-build semantics of `args.max + 1` at
line 67: overflow past 255 panics (`none`). -/
def u8checkedAdd (a b : Nat) : Option Nat :=
  if a + b ≤ 255 then some (a + b) else none

/-- Wrapping `u8` addition, the release-build semantics of `args.max + 1`. -/
def u8wrappingAdd (a b : Nat) : Nat := (a + b) % 256

/-- Division on `U256` as used at line 67: division by zero panics (`none`). -/
def u256div (a b : Nat) : Option Nat := if b = 0 then none else some (a / b)

/-- The computation `distribute_each = balance / U256::from(args.max + 1)`
(line 67) under debug-build (checked) `u8` addition. -/
def distributeEachChecked (balance mx : Nat) : Option Nat :=
  match u8checkedAdd mx 1 with
  | none => none
  | some d => u256div balance d

/-- The computation `distribute_each = balance / U256::from(args.max + 1)`
(line 67) under release-build (wrapping) `u8` addition. -/
def distributeEachWrapped (balance mx : Nat) : Option Nat :=
  u256div balance (u8wrappingAdd mx 1)

instance exceptDecEq {α β : Type} [DecidableEq α] [DecidableEq β] : DecidableEq (Except α β)
  | Except.ok x, Except.ok y =>
    if h : x = y then isTrue (by rw [h]) else isFalse (by intro hc; injection hc; contradiction)
  | Except.ok _, Except.error _ => isFalse (by intro hc; exact Except.noConfusion hc)
  | Except.error _, Except.ok _ => isFalse (by intro hc; exact Except.noConfusion hc)
  | Except.error x, Except.error y =>
    if h : x = y then isTrue (by rw [h]) else isFalse (by intro hc; injection hc; contradiction)

/-- Result of the funding loop (lines 72-88): the funder's final local nonce
(or the outcome of a propagated error), the successfully submitted transfers,
and the network submissions performed. -/
structure FundStep where
  result : Except MainOutcome Nat
  txs : List FundTx
  calls : List NetCall
deriving DecidableEq

/-- The funding loop at lines 73-88: for each child account index `k` (in
order), build a transfer of `share` wei at the current local `nonce`
(`?` propagates a build failure), submit it (`?` propagates a send failure),
then increment the local nonce. -/
def fundLoop (orc : NetOracle) (share : Nat) : List Nat → Nat → FundStep
  | [], nonce => ⟨Except.ok nonce, [], []⟩
  | k :: rest, nonce =>
    match orc.fundBuild k with
    | Except.error _ => ⟨Except.error (MainOutcome.fundBuildError k), [], []⟩
    | Except.ok _ =>
      match orc.fundSend k with
      | Except.error _ => ⟨Except.error (MainOutcome.fundSendError k), [], [NetCall.sendTx k]⟩
      | Except.ok _ =>
        let s := fundLoop orc share rest (nonce + 1)
        ⟨s.result, ⟨k, nonce, share⟩ :: s.txs, NetCall.sendTx k :: s.calls⟩

/-- Whether an `Except` value is `ok` (the `try_for_each` success test at
lines 89-92). -/
def exOk {α β : Type} : Except α β → Bool
  | Except.ok _ => true
  | Except.error _ => false

/-- Result of `main`'s startup-and-funding section: the outcome, the network
calls performed (in order of first issue), and the funding transfers issued. -/
structure MainResult where
  outcome : MainOutcome
  calls : List NetCall
  fundTxs : List FundTx
deriving DecidableEq

/-- The startup-and-funding section of `main` (lines 32-93), in program order:
the min/max validation (lines 34-36), key parsing (lines 44-49), the
`providers.first().unwrap()` panic when no RPC is configured (line 55), the
three startup queries (lines 56-60), the `u8` share computation (line 67), the
sidecar build (line 70), the funding loop (lines 72-88), and the `join_all`
confirmation wait with `try_for_each` (lines 89-92).  On success the spam loop
(line 97) is entered. -/
def runMain (args : Args) (orc : NetOracle) : MainResult :=
  if args.max < args.min ∨ args.max = 0 then ⟨MainOutcome.configError, [], []⟩
  else if args.keyValid = false then ⟨MainOutcome.keyError, [], []⟩
  else if args.numRpcs = 0 then ⟨MainOutcome.emptyRpcsPanic, [], []⟩
  else
    match orc.balance with
    | Except.error _ => ⟨MainOutcome.balanceError, [NetCall.getBalance], []⟩
    | Except.ok balance =>
      match orc.txCount with
      | Except.error _ => ⟨MainOutcome.txCountError, [NetCall.getBalance, NetCall.getTxCount], []⟩
      | Except.ok nonce0 =>
        match orc.chainId with
        | Except.error _ =>
          ⟨MainOutcome.chainIdError, [NetCall.getBalance, NetCall.getTxCount, NetCall.getChainId], []⟩
        | Except.ok _ =>
          match u8checkedAdd args.max 1 with
          | none =>
            ⟨MainOutcome.overflowPanic, [NetCall.getBalance, NetCall.getTxCount, NetCall.getChainId], []⟩
          | some d =>
            let share := balance / d
            match orc.sidecarOk with
            | Except.error _ =>
              ⟨MainOutcome.sidecarError, [NetCall.getBalance, NetCall.getTxCount, NetCall.getChainId], []⟩
            | Except.ok _ =>
              let s := fundLoop orc share (List.range args.max) nonce0
              let baseCalls := [NetCall.getBalance, NetCall.getTxCount, NetCall.getChainId] ++ s.calls
              match s.result with
              | Except.error out => ⟨out, baseCalls, s.txs⟩
              | Except.ok finalNonce =>
                let confirmCalls := (List.range args.max).map NetCall.awaitConfirm
                if (List.range args.max).all (fun k => exOk (orc.fundConfirm k)) then
                  ⟨MainOutcome.spamStarted share finalNonce, baseCalls ++ confirmCalls, s.txs⟩
                else
                  ⟨MainOutcome.fundConfirmError, baseCalls ++ confirmCalls, s.txs⟩

/-- The ephemeral wallet pool (lines 51-53): `(0..args.max).map(|_| random
wallet)` — exactly `args.max` identities, represented by their indices. -/
def childWallets (args : Args) : List Nat := List.range args.max

/-- Modelled from the spec: the uniform random sampler behind
`thread_rng().gen_range(args.min..=args.max)` (line 99).  The `rand`
collaborator draws uniformly from the inclusive range; `r` is the raw draw
from the random stream, reduced modulo the size of the range. -/
def genRange (lo hi r : Nat) : Nat := lo + r % (hi - lo + 1)

/-- Oracle for the fallible operations of one spam-phase send attempt: the
nonce fetch (`get_transaction_count`, line 104), the transaction build/sign
(lines 111-123), and the submission (`send_tx_envelope`, line 124). -/
structure AttemptOracle where
  fetchNonce : Except Unit Nat
  buildOk : Except Unit Unit
  submitOk : Except Unit Unit
deriving DecidableEq

/-- Observable outcome of one spam-phase send attempt that did not abort the
loop: the nonce fetch failed (logged, `continue`, line 106-109), the
submission failed (logged, line 124-126), or the transaction was sent. -/
inductive AttemptOutcome
  | fetchFailed
  | submitFailed (nonce : Nat)
  | sent (nonce : Nat)
deriving DecidableEq

/-- One spam-phase send attempt (lines 102-126): fetch the account's nonce
(on failure: log and continue with the next attempt), build and sign the
blob transaction (`?` at line 123 — a failure propagates out of the loop),
submit it (on failure: log only). -/
def runAttempt (o : AttemptOracle) : Except Unit AttemptOutcome :=
  match o.fetchNonce with
  | Except.error _ => Except.ok AttemptOutcome.fetchFailed
  | Except.ok nonce =>
    match o.buildOk with
    | Except.error e => Except.error e
    | Except.ok _ =>
      match o.submitOk with
      | Except.error _ => Except.ok (AttemptOutcome.submitFailed nonce)
      | Except.ok _ => Except.ok (AttemptOutcome.sent nonce)

/-- The outcome a send attempt reports when its build step succeeds,
determined by its own oracle alone. -/
def attemptView (o : AttemptOracle) : AttemptOutcome :=
  match o.fetchNonce with
  | Except.error _ => AttemptOutcome.fetchFailed
  | Except.ok nonce =>
    match o.submitOk with
    | Except.error _ => AttemptOutcome.submitFailed nonce
    | Except.ok _ => AttemptOutcome.sent nonce

/-- The body of one batch tick over a given list of account indices: run the
attempts in order; a propagated (build) error aborts the remaining attempts. -/
def runTickAux (os : Nat → AttemptOracle) : List Nat → Except Unit (List (Nat × AttemptOutcome))
  | [] => Except.ok []
  | idx :: rest =>
    match runAttempt (os idx) with
    | Except.error e => Except.error e
    | Except.ok out =>
      match runTickAux os rest with
      | Except.error e => Except.error e
      | Except.ok l => Except.ok ((idx, out) :: l)

/-- One batch tick with drawn count `num` (lines 101-127): `for idx in 0..num`
run one send attempt addressed to child account `idx`. -/
def runTick (os : Nat → AttemptOracle) (num : Nat) : Except Unit (List (Nat × AttemptOutcome)) :=
  runTickAux os (List.range num)

/-- The account indices a tick addresses before it finishes or aborts: each
iteration looks up the child wallet at `idx` (line 103) before any fallible
step, and a propagated error ends the loop at that iteration. -/
def tickAddressedAux (os : Nat → AttemptOracle) : List Nat → List Nat
  | [] => []
  | idx :: rest =>
    match runAttempt (os idx) with
    | Except.error _ => [idx]
    | Except.ok _ => idx :: tickAddressedAux os rest

/-- The account indices addressed by a tick with drawn count `num`. -/
def tickAddressed (os : Nat → AttemptOracle) (num : Nat) : List Nat :=
  tickAddressedAux os (List.range num)

/-- The spam loop across ticks (lines 97-128): tick `t` draws count `nums t`
and runs its attempts with oracles `os t`; a propagated error terminates the
loop, otherwise the loop continues forever (here: up to tick `T`). -/
def runTicks (nums : Nat → Nat) (os : Nat → Nat → AttemptOracle) :
    Nat → Except Unit (List (List (Nat × AttemptOutcome)))
  | 0 => Except.ok []
  | t + 1 =>
    match runTicks nums os t with
    | Except.error e => Except.error e
    | Except.ok ls =>
      match runTick (os t) (nums t) with
      | Except.error e => Except.error e
      | Except.ok l => Except.ok (ls ++ [l])

/-- The spam scheduler period: `interval(Duration::from_secs(12))`, line 95. -/
def tickPeriod : Nat := 12

/-- Modelled from the spec: the timer collaborator configured at lines 95-96 —
a `tokio` interval with `MissedTickBehavior::Delay`.  `sched dur n` returns
(fire time of tick `n`, deadline armed for tick `n + 1`): the first tick fires
immediately; a later tick fires at its deadline if the previous tick's work
(of duration `dur n`) finished in time, and otherwise fires immediately when
the work ends, with the next deadline re-armed one full period after the
actual fire time (missed ticks are coalesced, never queued). -/
def sched (dur : Nat → Nat) : Nat → Nat × Nat
  | 0 => (0, tickPeriod)
  | n + 1 =>
    let p := sched dur n
    let fire := max (p.1 + dur n) p.2
    (fire, fire + tickPeriod)

/-- The time at which spam tick `n` fires. -/
def fireTime (dur : Nat → Nat) (n : Nat) : Nat := (sched dur n).1

/-- Events of the funding loop (lines 73-88), in the order the code performs
them for each transfer `k`: build the transfer at the current local nonce,
submit it, then increment the local nonce to the recorded value. -/
inductive FundEvent
  | built (k nonce : Nat)
  | submitted (k : Nat)
  | incremented (newNonce : Nat)
deriving DecidableEq

/-- Event trace of the funding loop over the given account indices, starting
from local nonce `nonce`: per account `k` the code emits
`built k nonce`, `submitted k`, `incremented (nonce + 1)` (lines 75-87,
`nonce += 1` at line 87 coming after `send_tx_envelope` at line 86). -/
def fundingTraceAux (nonce : Nat) : List Nat → List FundEvent
  | [] => []
  | k :: rest =>
    FundEvent.built k nonce :: FundEvent.submitted k ::
      FundEvent.incremented (nonce + 1) :: fundingTraceAux (nonce + 1) rest

/-- Event trace of the funding loop for `n` accounts from starting nonce
`nonce0`. -/
def fundingTrace (nonce0 n : Nat) : List FundEvent :=
  fundingTraceAux nonce0 (List.range n)

/-- A spam-attempt oracle family whose every attempt succeeds. -/
def osAllGood : Nat → AttemptOracle := fun _ => ⟨Except.ok 7, Except.ok (), Except.ok ()⟩

/-- A spam-attempt oracle family whose attempt at index 0 fails at the
build/sign step (the `?` at line 123). -/
def osBuildFail0 : Nat → AttemptOracle := fun k =>
  if k = 0 then ⟨Except.ok 7, Except.error (), Except.ok ()⟩
  else ⟨Except.ok 7, Except.ok (), Except.ok ()⟩

/-- A spam-attempt oracle family whose attempt at index 1 fails at the
build/sign step. -/
def osBuildFail1 : Nat → AttemptOracle := fun k =>
  if k = 1 then ⟨Except.ok 7, Except.error (), Except.ok ()⟩
  else ⟨Except.ok 7, Except.ok (), Except.ok ()⟩

/-- A network oracle where every startup query, build, submission and
confirmation succeeds: balance 1000 wei, starting nonce 5, chain id 1. -/
def orcGood : NetOracle :=
  ⟨Except.ok 1000, Except.ok 5, Except.ok 1, Except.ok (),
   fun _ => Except.ok (), fun _ => Except.ok (), fun _ => Except.ok ()⟩

/-- Like `orcGood`, but funding transfer 1 fails to reach on-ledger
acceptance. -/
def orcConfirmFail : NetOracle :=
  ⟨Except.ok 1000, Except.ok 5, Except.ok 1, Except.ok (),
   fun _ => Except.ok (), fun _ => Except.ok (),
   fun k => if k = 1 then Except.error () else Except.ok ()⟩

/-- Claim C6: for every configuration with `max < min` or `max = 0`, the
program rejects the configuration with a fatal error (the `return Err` at
line 35) before performing any network call: the run ends in `configError`
having issued no network call at all. -/
theorem c6_config_validation (args : Args) (orc : NetOracle)
    (h : args.max < args.min ∨ args.max = 0) :
    (runMain args orc).outcome = MainOutcome.configError
    ∧ (runMain args orc).calls = [] := by
  unfold runMain
  rw [if_pos h]
  exact ⟨rfl, rfl⟩

theorem c6_witness :
    (runMain ⟨1, true, 3, 2⟩ orcGood).outcome = MainOutcome.configError
    ∧ (runMain ⟨1, true, 3, 2⟩ orcGood).calls = [] :=
  c6_config_validation ⟨1, true, 3, 2⟩ orcGood (by decide)

/-- Claim C4: for every configuration with `min ≤ max` and `max ≥ 1`, every
batch tick draws a count in the inclusive range `[min, max]` — the draw never
exceeds the range — and the draw is uniform: every value of the range has
exactly one preimage among the `max - min + 1` residues of the raw random
draw. -/
theorem c4_batch_count_uniform (lo hi : Nat) (h1 : lo ≤ hi) (h2 : 1 ≤ hi) :
    (∀ r, lo ≤ genRange lo hi r ∧ genRange lo hi r ≤ hi)
    ∧ ∀ v, lo ≤ v → v ≤ hi →
        ((Finset.range (hi - lo + 1)).filter (fun s => genRange lo hi s = v)).card = 1 := by
  constructor
  · intro r
    unfold genRange
    have hmod : r % (hi - lo + 1) < hi - lo + 1 := Nat.mod_lt _ (by omega)
    omega
  · intro v hv1 hv2
    have hset : (Finset.range (hi - lo + 1)).filter (fun s => genRange lo hi s = v)
        = {v - lo} := by
      ext s
      simp only [Finset.mem_filter, Finset.mem_range, Finset.mem_singleton, genRange]
      constructor
      · rintro ⟨hs, he⟩
        rw [Nat.mod_eq_of_lt hs] at he
        omega
      · intro hs
        subst hs
        have hlt : v - lo < hi - lo + 1 := by omega
        rw [Nat.mod_eq_of_lt hlt]
        exact ⟨hlt, by omega⟩
    rw [hset, Finset.card_singleton]

theorem c4_witness :
    (∀ r, 1 ≤ genRange 1 3 r ∧ genRange 1 3 r ≤ 3)
    ∧ ∀ v, 1 ≤ v → v ≤ 3 →
        ((Finset.range (3 - 1 + 1)).filter (fun s => genRange 1 3 s = v)).card = 1 :=
  c4_batch_count_uniform 1 3 (by decide) (by decide)

/-- Claim C10: the spam-phase account lookup by loop index never fails: the
pool holds exactly `args.max` wallets, the drawn count never exceeds
`args.max`, and hence every loop index below the drawn count is a valid index
into the pool (the `unwrap` at line 103 cannot panic). -/
theorem c10_account_lookup_safe (args : Args) (r idx : Nat)
    (h : args.min ≤ args.max) (hidx : idx < genRange args.min args.max r) :
    (childWallets args).length = args.max
    ∧ genRange args.min args.max r ≤ args.max
    ∧ (childWallets args).get? idx = some idx := by
  have hle : genRange args.min args.max r ≤ args.max := by
    unfold genRange
    have hmod : r % (args.max - args.min + 1) < args.max - args.min + 1 :=
      Nat.mod_lt _ (by omega)
    omega
  refine ⟨by simp [childWallets], hle, ?_⟩
  exact List.get?_range (by omega)

theorem c10_witness :
    (childWallets ⟨1, true, 1, 3⟩).length = 3
    ∧ genRange 1 3 5 ≤ 3
    ∧ (childWallets ⟨1, true, 1, 3⟩).get? 1 = some 1 :=
  c10_account_lookup_safe ⟨1, true, 1, 3⟩ 5 1 (by decide) (by decide)

/-- The funding loop on a block of consecutive account indices, when every
build and submission succeeds: it issues one transfer of `share` per account,
with consecutive nonces starting at `nonce`, and ends with the local nonce
advanced by the number of accounts. -/
theorem fundLoop_ok (orc : NetOracle) (share : Nat) :
    ∀ (n a nonce : Nat),
      (∀ k, a ≤ k → k < a + n →
        orc.fundBuild k = Except.ok () ∧ orc.fundSend k = Except.ok ()) →
      fundLoop orc share (List.range' a n) nonce =
        ⟨Except.ok (nonce + n),
         (List.range n).map (fun i => ⟨a + i, nonce + i, share⟩),
         (List.range n).map (fun i => NetCall.sendTx (a + i))⟩ := by
  intro n
  induction n with
  | zero => intro a nonce h; simp [fundLoop, List.range']
  | succ n ih =>
    intro a nonce h
    obtain ⟨hb, hs⟩ := h a (Nat.le_refl a) (by omega)
    have hrec := ih (a + 1) (nonce + 1) (fun k hk1 hk2 => h k (by omega) (by omega))
    show fundLoop orc share (a :: List.range' (a + 1) n) nonce = _
    simp only [fundLoop, hb, hs, hrec, FundStep.mk.injEq, Except.ok.injEq]
    refine ⟨by omega, ?_, ?_⟩
    · rw [List.range_succ_eq_map, List.map_cons, List.map_map]
      refine congrArg₂ List.cons (by simp) ?_
      refine List.map_congr_left fun i _ => ?_
      simp only [Function.comp_apply, FundTx.mk.injEq]
      exact ⟨by omega, by omega, by trivial⟩
    · rw [List.range_succ_eq_map, List.map_cons, List.map_map]
      refine congrArg₂ List.cons (by simp) ?_
      refine List.map_congr_left fun i _ => ?_
      simp only [Function.comp_apply, NetCall.sendTx.injEq]
      omega

/-- The full startup-and-funding run when the configuration is valid, the key
parses, the startup queries succeed, the share computation does not overflow,
and every funding build and submission succeeds: the three startup queries are
followed by one submission per child account (share `B / (max + 1)`,
consecutive nonces from the fetched starting nonce) and one confirmation wait
per account; the run enters the spam phase iff every confirmation succeeds. -/
theorem runMain_funded (args : Args) (orc : NetOracle) (B n0 cid : Nat)
    (hv : ¬(args.max < args.min ∨ args.max = 0)) (hk : args.keyValid = true)
    (hr : ¬ args.numRpcs = 0)
    (hb : orc.balance = Except.ok B) (ht : orc.txCount = Except.ok n0)
    (hc : orc.chainId = Except.ok cid) (hsc : orc.sidecarOk = Except.ok ())
    (hmax : args.max ≤ 254)
    (hfund : ∀ k, k < args.max →
      orc.fundBuild k = Except.ok () ∧ orc.fundSend k = Except.ok ()) :
    runMain args orc =
      ⟨(if (List.range args.max).all (fun k => exOk (orc.fundConfirm k)) then
          MainOutcome.spamStarted (B / (args.max + 1)) (n0 + args.max)
        else MainOutcome.fundConfirmError),
       ([NetCall.getBalance, NetCall.getTxCount, NetCall.getChainId]
         ++ (List.range args.max).map (fun i => NetCall.sendTx i))
         ++ (List.range args.max).map NetCall.awaitConfirm,
       (List.range args.max).map (fun k => ⟨k, n0 + k, B / (args.max + 1)⟩)⟩ := by
  have hadd : u8checkedAdd args.max 1 = some (args.max + 1) := by
    unfold u8checkedAdd
    rw [if_pos (by omega)]
  have hloop := fundLoop_ok orc (B / (args.max + 1)) args.max 0 n0
    (fun k h1 h2 => hfund k (by omega))
  rw [← List.range_eq_range'] at hloop
  unfold runMain
  rw [if_neg hv, hk, if_neg (by simp), if_neg hr]
  simp only [hb, ht, hc, hadd, hsc, hloop]
  simp only [Nat.zero_add]
  split
  · rfl
  · rfl

/-- Claim C2 (amended): for a funder with starting balance `B` and a pool of
`N = args.max` ephemeral accounts with `N ≤ 254`, the funding phase sends each
of the `N` accounts a transfer of exactly `B / (N + 1)` under integer division
(the remainder is never distributed), and after all `N` transfers are issued
the funder's local sequence counter equals its starting value plus `N`.  The
restriction `N ≤ 254` is forced: at `N = 255` the `u8` computation of the
divisor overflows and the program panics before issuing any transfer. -/
theorem c2_funding_split_amended (args : Args) (orc : NetOracle) (B n0 cid : Nat)
    (hv : ¬(args.max < args.min ∨ args.max = 0)) (hk : args.keyValid = true)
    (hr : ¬ args.numRpcs = 0)
    (hb : orc.balance = Except.ok B) (ht : orc.txCount = Except.ok n0)
    (hc : orc.chainId = Except.ok cid) (hsc : orc.sidecarOk = Except.ok ())
    (hmax : args.max ≤ 254)
    (hfund : ∀ k, k < args.max →
      orc.fundBuild k = Except.ok () ∧ orc.fundSend k = Except.ok ()) :
    (runMain args orc).fundTxs =
      (List.range args.max).map (fun k => ⟨k, n0 + k, B / (args.max + 1)⟩)
    ∧ (fundLoop orc (B / (args.max + 1)) (List.range args.max) n0).result
        = Except.ok (n0 + args.max) := by
  have hmaster := runMain_funded args orc B n0 cid hv hk hr hb ht hc hsc hmax hfund
  have hloop := fundLoop_ok orc (B / (args.max + 1)) args.max 0 n0
    (fun k h1 h2 => hfund k (by omega))
  rw [← List.range_eq_range'] at hloop
  constructor
  · rw [hmaster]
  · rw [hloop]

theorem c2_witness :
    (runMain ⟨1, true, 2, 3⟩ orcGood).fundTxs =
      (List.range 3).map (fun k => ⟨k, 5 + k, 1000 / (3 + 1)⟩)
    ∧ (fundLoop orcGood (1000 / (3 + 1)) (List.range 3) 5).result
        = Except.ok (5 + 3) :=
  c2_funding_split_amended ⟨1, true, 2, 3⟩ orcGood 1000 5 1 (by decide) rfl
    (by decide) rfl rfl rfl rfl (by decide) (fun k hk => ⟨rfl, rfl⟩)

/-- Claim C2 counterexample: with a pool of `N = 255` ephemeral accounts
(`--max 255`), a funder balance of 1000 wei and every network operation
succeeding, the funding phase does not send each account `B / (N + 1)`:
the `u8` divisor computation panics and the list of issued transfers is
empty, not 255 transfers of `1000 / 256`. -/
theorem c2_counterexample :
    ¬ ((runMain ⟨1, true, 1, 255⟩ orcGood).fundTxs.map FundTx.value
        = List.replicate 255 (1000 / 256)) := by
  intro h
  have h0 : (runMain ⟨1, true, 1, 255⟩ orcGood).fundTxs = [] := rfl
  rw [h0] at h
  have hlen := congrArg List.length h
  rw [List.length_map, List.length_nil, List.length_replicate] at hlen
  omega

/-- Claim C7: if the whole startup succeeds up to and including all funding
submissions but any one of the `N` funding transfers fails to reach on-ledger
acceptance, the funding coordinator fails (`try_for_each` propagates the
error, lines 89-92), the run ends in `fundConfirmError`, and the spam phase is
never entered. -/
theorem c7_funding_confirm_aborts (args : Args) (orc : NetOracle) (B n0 cid : Nat)
    (hv : ¬(args.max < args.min ∨ args.max = 0)) (hk : args.keyValid = true)
    (hr : ¬ args.numRpcs = 0)
    (hb : orc.balance = Except.ok B) (ht : orc.txCount = Except.ok n0)
    (hc : orc.chainId = Except.ok cid) (hsc : orc.sidecarOk = Except.ok ())
    (hmax : args.max ≤ 254)
    (hfund : ∀ k, k < args.max →
      orc.fundBuild k = Except.ok () ∧ orc.fundSend k = Except.ok ())
    (hbad : ∃ k, k < args.max ∧ orc.fundConfirm k = Except.error ()) :
    (runMain args orc).outcome = MainOutcome.fundConfirmError
    ∧ ∀ s fn, (runMain args orc).outcome ≠ MainOutcome.spamStarted s fn := by
  have hmaster := runMain_funded args orc B n0 cid hv hk hr hb ht hc hsc hmax hfund
  have hall : ¬ ((List.range args.max).all (fun j => exOk (orc.fundConfirm j)) = true) := by
    intro hcon
    obtain ⟨k, hk2, he⟩ := hbad
    have hx := List.all_eq_true.mp hcon k (List.mem_range.mpr hk2)
    rw [he] at hx
    exact Bool.noConfusion hx
  rw [hmaster]
  constructor
  · show (if _ then _ else _) = _
    rw [if_neg hall]
  · intro s fn
    show ¬ ((if _ then _ else _) = _)
    rw [if_neg hall]
    exact fun hcc => MainOutcome.noConfusion hcc

theorem c7_witness :
    (runMain ⟨1, true, 2, 3⟩ orcConfirmFail).outcome = MainOutcome.fundConfirmError
    ∧ ∀ s fn,
        (runMain ⟨1, true, 2, 3⟩ orcConfirmFail).outcome ≠ MainOutcome.spamStarted s fn :=
  c7_funding_confirm_aborts ⟨1, true, 2, 3⟩ orcConfirmFail 1000 5 1 (by decide) rfl
    (by decide) rfl rfl rfl rfl (by decide) (fun k hk => ⟨rfl, rfl⟩)
    ⟨1, by decide, rfl⟩

/-- Claim C9: the funding-share divisor is computed as `args.max + 1` in 8-bit
unsigned arithmetic (line 67), so at `max = 255` the addition overflows: the
checked (debug) addition panics, the wrapping (release) addition yields 0 and
the subsequent `U256` division panics on a zero divisor; in neither build is
the share `balance / 256` produced, and a run reaching line 67 with
`max = 255` ends in the overflow panic. -/
theorem c9_share_divisor_overflow (b : Nat) (args : Args) (orc : NetOracle) (n0 cid : Nat)
    (h255 : args.max = 255) (hmin : ¬ (args.max < args.min)) (hk : args.keyValid = true)
    (hr : ¬ args.numRpcs = 0) (hb : orc.balance = Except.ok b)
    (ht : orc.txCount = Except.ok n0) (hc : orc.chainId = Except.ok cid) :
    u8checkedAdd 255 1 = none
    ∧ u8wrappingAdd 255 1 = 0
    ∧ distributeEachChecked b 255 = none
    ∧ distributeEachWrapped b 255 = none
    ∧ distributeEachChecked b 255 ≠ some (b / 256)
    ∧ distributeEachWrapped b 255 ≠ some (b / 256)
    ∧ (runMain args orc).outcome = MainOutcome.overflowPanic := by
  have hchk : distributeEachChecked b 255 = none := by
    unfold distributeEachChecked
    have hres : u8checkedAdd 255 1 = none := rfl
    rw [hres]
  have hwrp : distributeEachWrapped b 255 = none := by
    unfold distributeEachWrapped
    have hres : u8wrappingAdd 255 1 = 0 := rfl
    rw [hres]
    rfl
  refine ⟨rfl, rfl, hchk, hwrp, by rw [hchk]; exact fun hcc => Option.noConfusion hcc,
    by rw [hwrp]; exact fun hcc => Option.noConfusion hcc, ?_⟩
  have hv : ¬(args.max < args.min ∨ args.max = 0) := by
    intro hcon
    rcases hcon with h1 | h2
    · exact hmin h1
    · omega
  unfold runMain
  rw [if_neg hv, hk, if_neg (by simp), if_neg hr]
  simp only [hb, ht, hc]
  have hofl : u8checkedAdd args.max 1 = none := by
    rw [h255]
    rfl
  simp only [hofl]

theorem c9_witness :
    u8checkedAdd 255 1 = none
    ∧ u8wrappingAdd 255 1 = 0
    ∧ distributeEachChecked 1000 255 = none
    ∧ distributeEachWrapped 1000 255 = none
    ∧ distributeEachChecked 1000 255 ≠ some (1000 / 256)
    ∧ distributeEachWrapped 1000 255 ≠ some (1000 / 256)
    ∧ (runMain ⟨1, true, 1, 255⟩ orcGood).outcome = MainOutcome.overflowPanic :=
  c9_share_divisor_overflow 1000 ⟨1, true, 1, 255⟩ orcGood 5 1 rfl (by decide) rfl
    (by decide) rfl rfl rfl

theorem fundingTraceAux_length : ∀ (ks : List Nat) (n0 : Nat),
    (fundingTraceAux n0 ks).length = 3 * ks.length := by
  intro ks
  induction ks with
  | nil => intro n0; rfl
  | cons k rest ih =>
    intro n0
    simp only [fundingTraceAux, List.length_cons, ih]
    omega

/-- Position of the events of transfer `k` within the funding trace over a
block of consecutive account indices: the build of transfer `k` (at local
nonce `n0 + k`) sits at index `3k`, its submission at `3k + 1`, and the nonce
increment to `n0 + k + 1` at `3k + 2` — i.e. the increment comes strictly
after the submission of transfer `k` and strictly before the build of
transfer `k + 1`. -/
theorem fundingTraceAux_get (k : Nat) : ∀ (n a n0 : Nat), k < n →
    (fundingTraceAux n0 (List.range' a n)).get? (3 * k)
        = some (FundEvent.built (a + k) (n0 + k))
    ∧ (fundingTraceAux n0 (List.range' a n)).get? (3 * k + 1)
        = some (FundEvent.submitted (a + k))
    ∧ (fundingTraceAux n0 (List.range' a n)).get? (3 * k + 2)
        = some (FundEvent.incremented (n0 + k + 1)) := by
  induction k with
  | zero =>
    intro n a n0 hk
    match n, hk with
    | m + 1, _ =>
      show (fundingTraceAux n0 (a :: List.range' (a + 1) m)).get? 0 = _
        ∧ (fundingTraceAux n0 (a :: List.range' (a + 1) m)).get? 1 = _
        ∧ (fundingTraceAux n0 (a :: List.range' (a + 1) m)).get? 2 = _
      simp [fundingTraceAux]
  | succ k ih =>
    intro n a n0 hk
    match n, hk with
    | m + 1, _ =>
      have hk2 : k < m := by omega
      obtain ⟨h1, h2, h3⟩ := ih m (a + 1) (n0 + 1) hk2
      have e0 : 3 * (k + 1) = 3 * k + 1 + 1 + 1 := by ring
      have e1 : 3 * (k + 1) + 1 = 3 * k + 1 + 1 + 1 + 1 := by ring
      have e2 : 3 * (k + 1) + 2 = 3 * k + 2 + 1 + 1 + 1 := by ring
      have ea : a + (k + 1) = a + 1 + k := by omega
      have en : n0 + (k + 1) = n0 + 1 + k := by omega
      have en2 : n0 + (k + 1) + 1 = n0 + 1 + k + 1 := by omega
      show (fundingTraceAux n0 (a :: List.range' (a + 1) m)).get? (3 * (k + 1)) = _
        ∧ (fundingTraceAux n0 (a :: List.range' (a + 1) m)).get? (3 * (k + 1) + 1) = _
        ∧ (fundingTraceAux n0 (a :: List.range' (a + 1) m)).get? (3 * (k + 1) + 2) = _
      simp only [fundingTraceAux]
      rw [e2, e0]
      rw [List.get?_cons_succ, List.get?_cons_succ, List.get?_cons_succ]
      rw [ea, en]
      exact ⟨h1, h2, h3⟩

/-- Claim C3 (amended): during the funding phase the funder's local sequence
counter increases by exactly one per funding transaction, but the increment
for transaction `k` occurs strictly AFTER that transaction is submitted
(`nonce += 1` at line 87 follows `send_tx_envelope` at line 86) and strictly
before transaction `k + 1` is built; consecutive funding transactions use
consecutive counter values `n0 + k` with no gaps or reuse. -/
theorem c3_counter_increment_amended (n0 n k : Nat) (hk : k < n) :
    (fundingTrace n0 n).length = 3 * n
    ∧ (fundingTrace n0 n).get? (3 * k) = some (FundEvent.built k (n0 + k))
    ∧ (fundingTrace n0 n).get? (3 * k + 1) = some (FundEvent.submitted k)
    ∧ (fundingTrace n0 n).get? (3 * k + 2) = some (FundEvent.incremented (n0 + k + 1)) := by
  have hlen : (fundingTrace n0 n).length = 3 * n := by
    unfold fundingTrace
    rw [fundingTraceAux_length, List.length_range]
  have hget := fundingTraceAux_get k n 0 n0 hk
  rw [← List.range_eq_range'] at hget
  obtain ⟨h1, h2, h3⟩ := hget
  rw [Nat.zero_add] at h1 h2
  exact ⟨hlen, h1, h2, h3⟩

theorem c3_witness :
    (fundingTrace 5 2).length = 3 * 2
    ∧ (fundingTrace 5 2).get? (3 * 1) = some (FundEvent.built 1 (5 + 1))
    ∧ (fundingTrace 5 2).get? (3 * 1 + 1) = some (FundEvent.submitted 1)
    ∧ (fundingTrace 5 2).get? (3 * 1 + 2) = some (FundEvent.incremented (5 + 1 + 1)) :=
  c3_counter_increment_amended 5 2 1 (by decide)

/-- Claim C3 counterexample: in a funding run with one account and starting
nonce 0, no nonce-increment event precedes the submission of transfer 0 — the
claim that the increment for a funding transaction occurs strictly before
that transaction is submitted is false (the trace is
`[built 0 0, submitted 0, incremented 1]`). -/
theorem c3_counterexample :
    ¬ ∃ j i, i < j
      ∧ (fundingTrace 0 1).get? i = some (FundEvent.incremented 1)
      ∧ (fundingTrace 0 1).get? j = some (FundEvent.submitted 0) := by
  rintro ⟨j, i, hij, hi, hj⟩
  have hT : fundingTrace 0 1
      = [FundEvent.built 0 0, FundEvent.submitted 0, FundEvent.incremented 1] := rfl
  rw [hT] at hi hj
  have hjlt : j < 3 := by
    by_contra hcon
    rw [List.get?_eq_none.mpr (by simp; omega)] at hj
    exact Option.noConfusion hj
  interval_cases j <;> interval_cases i <;> simp_all

/-- A send attempt whose build/sign step succeeds never propagates an error:
its result is the outcome determined by its own fetch and submit oracles. -/
theorem runAttempt_build_ok (o : AttemptOracle) (h : o.buildOk = Except.ok ()) :
    runAttempt o = Except.ok (attemptView o) := by
  rcases hf : o.fetchNonce with e | nn <;> rcases hs : o.submitOk with e2 | u <;>
    simp [runAttempt, attemptView, hf, hs, h]

theorem runTickAux_builds_ok (os : Nat → AttemptOracle) :
    ∀ (n a : Nat),
      (∀ k, a ≤ k → k < a + n → (os k).buildOk = Except.ok ()) →
      runTickAux os (List.range' a n)
        = Except.ok ((List.range' a n).map (fun i => (i, attemptView (os i)))) := by
  intro n
  induction n with
  | zero => intro a h; rfl
  | succ n ih =>
    intro a h
    have hrec := ih (a + 1) (fun k hk1 hk2 => h k (by omega) (by omega))
    show runTickAux os (a :: List.range' (a + 1) n) = _
    simp only [runTickAux, runAttempt_build_ok (os a) (h a (Nat.le_refl a) (by omega)), hrec]
    rfl

/-- A batch tick in which no attempt fails at the build/sign step executes all
`num` of its attempts. -/
theorem runTick_builds_ok (os : Nat → AttemptOracle) (num : Nat)
    (h : ∀ i, i < num → (os i).buildOk = Except.ok ()) :
    runTick os num
      = Except.ok ((List.range num).map (fun i => (i, attemptView (os i)))) := by
  unfold runTick
  rw [List.range_eq_range']
  exact runTickAux_builds_ok os num 0 (fun k hk1 hk2 => h k (by omega))

/-- Claim C1 counterexample: in a tick of two send attempts in which attempt 0
fails at the build/sign step (the `?` at line 123), the error propagates past
the attempt boundary and the sibling attempt never executes — the tick does
not produce results for its 2 attempts. -/
theorem c1_counterexample :
    ¬ ∃ l, runTick osBuildFail0 2 = Except.ok l ∧ l.length = 2 := by
  rintro ⟨l, hl, -⟩
  have h : runTick osBuildFail0 2 = Except.error () := rfl
  rw [h] at hl
  exact Except.noConfusion hl

/-- Claim C1 (amended): for every send attempt in the spam phase, a failure
fetching the account's sequence counter or submitting the transaction is
reported and only that attempt is abandoned — sibling attempts in the same
tick still execute and the loop continues to subsequent ticks.  This holds
whenever no attempt fails at the build/sign step; a build/sign failure, by
contrast, propagates past the attempt boundary (see the counterexample).
Formally: if every build succeeds, then after `T` ticks the loop has produced
one result list per tick, tick `t` contains all `nums t` of its attempts in
order, and each attempt's reported outcome (`fetchFailed`, `submitFailed` or
`sent`) is a function of that attempt's own oracle alone. -/
theorem c1_spam_fault_isolation_amended (nums : Nat → Nat)
    (os : Nat → Nat → AttemptOracle) (T : Nat)
    (h : ∀ t, t < T → ∀ i, i < nums t → (os t i).buildOk = Except.ok ()) :
    runTicks nums os T =
      Except.ok ((List.range T).map fun t =>
        (List.range (nums t)).map fun i => (i, attemptView (os t i))) := by
  induction T with
  | zero => rfl
  | succ T ih =>
    unfold runTicks
    rw [ih (fun t ht i hi => h t (by omega) i hi)]
    rw [runTick_builds_ok (os T) (nums T) (h T (by omega))]
    simp [List.range_succ]

theorem c1_witness :
    runTicks (fun _ => 2) (fun _ i => osAllGood i) 2 =
      Except.ok ((List.range 2).map fun t =>
        (List.range 2).map fun i => (i, attemptView (osAllGood i))) :=
  c1_spam_fault_isolation_amended (fun _ => 2) (fun _ i => osAllGood i) 2
    (fun t ht i hi => rfl)

theorem tickAddressedAux_initial (os : Nat → AttemptOracle) :
    ∀ (n a : Nat), ∃ m, m ≤ n ∧ tickAddressedAux os (List.range' a n) = List.range' a m := by
  intro n
  induction n with
  | zero => intro a; exact ⟨0, Nat.le_refl 0, rfl⟩
  | succ n ih =>
    intro a
    rcases h : runAttempt (os a) with e | out
    · refine ⟨1, by omega, ?_⟩
      show tickAddressedAux os (a :: List.range' (a + 1) n) = _
      simp [tickAddressedAux, h, List.range']
    · obtain ⟨m, hm, he⟩ := ih (a + 1)
      refine ⟨m + 1, by omega, ?_⟩
      show tickAddressedAux os (a :: List.range' (a + 1) n) = _
      simp [tickAddressedAux, h, he, List.range']

theorem tickAddressedAux_all (os : Nat → AttemptOracle) :
    ∀ (n a : Nat),
      (∀ k, a ≤ k → k < a + n → (os k).buildOk = Except.ok ()) →
      tickAddressedAux os (List.range' a n) = List.range' a n := by
  intro n
  induction n with
  | zero => intro a h; rfl
  | succ n ih =>
    intro a h
    have hrec := ih (a + 1) (fun k hk1 hk2 => h k (by omega) (by omega))
    show tickAddressedAux os (a :: List.range' (a + 1) n) = _
    simp only [tickAddressedAux, runAttempt_build_ok (os a) (h a (Nat.le_refl a) (by omega)),
      hrec]
    rfl

/-- Claim C5 counterexample: in a tick with drawn count 3 in which attempt 1
fails at the build/sign step, the tick addresses only accounts 0 and 1 — not
exactly the accounts at indices 0..2 as the claim states for every tick. -/
theorem c5_counterexample :
    ¬ (tickAddressed osBuildFail1 3 = List.range 3) := by
  decide

/-- Claim C5 (amended): for every tick with drawn count `C`, the send attempts
address an initial prefix of the ephemeral account pool in increasing index
order — the accounts at indices `0..m-1` for some `m ≤ C`, never a random
subset; and whenever no attempt aborts the tick through a build/sign failure
(in particular whenever failures are limited to sequence-fetch or submission
failures), the attempts address exactly the accounts at indices `0..C-1`, in
that order, regardless of the randomized per-tick count. -/
theorem c5_addressing_amended (os : Nat → AttemptOracle) (num : Nat) :
    (∃ m, m ≤ num ∧ tickAddressed os num = List.range m)
    ∧ ((∀ i, i < num → (os i).buildOk = Except.ok ())
        → tickAddressed os num = List.range num) := by
  constructor
  · obtain ⟨m, hm, he⟩ := tickAddressedAux_initial os num 0
    refine ⟨m, hm, ?_⟩
    unfold tickAddressed
    rw [List.range_eq_range', he, ← List.range_eq_range']
  · intro h
    unfold tickAddressed
    rw [List.range_eq_range']
    exact tickAddressedAux_all os num 0 (fun k hk1 hk2 => h k (by omega))

theorem c5_witness :
    tickAddressed osAllGood 3 = List.range 3 :=
  (c5_addressing_amended osAllGood 3).2 (fun i hi => rfl)

/-- After any tick, the deadline armed for the next tick is one full period
after the tick's actual fire time. -/
theorem sched_snd (dur : Nat → Nat) (n : Nat) :
    (sched dur n).2 = (sched dur n).1 + tickPeriod := by
  cases n <;> rfl

/-- Consecutive spam ticks fire at least one full period apart: the timer
never fires a burst of catch-up ticks. -/
theorem fire_succ_ge (dur : Nat → Nat) (n : Nat) :
    fireTime dur n + tickPeriod ≤ fireTime dur (n + 1) := by
  have h2 := sched_snd dur n
  have h1 : fireTime dur (n + 1) = max ((sched dur n).1 + dur n) ((sched dur n).2) := rfl
  rw [h1, h2]
  exact Nat.le_max_right _ _

theorem fire_mono (dur : Nat → Nat) {k j : Nat} (h : k ≤ j) :
    fireTime dur k ≤ fireTime dur j := by
  induction h with
  | refl => exact Nat.le_refl _
  | step h2 ih =>
    refine Nat.le_trans ih (Nat.le_trans (Nat.le_add_right _ tickPeriod) ?_)
    exact fire_succ_ge dur _

/-- Claim C8: the scheduler fires on a fixed 12-time-unit period, and if tick
`n`'s work overruns its deadline by `m ≥ 1` full periods, exactly one further
tick fires at the moment the overrunning work ends (missed ticks are
coalesced, never queued): in the whole window from the missed deadline to the
end of the overrun only tick `n + 1` fires — not one tick per missed period —
and the schedule then resumes with at least a full period before the next
tick. -/
theorem c8_missed_tick_coalescing (dur : Nat → Nat) (n m : Nat) (hm : 1 ≤ m)
    (hover : (sched dur n).2 + tickPeriod * m ≤ (sched dur n).1 + dur n) :
    tickPeriod = 12
    ∧ fireTime dur (n + 1) = (sched dur n).1 + dur n
    ∧ (∀ k, ((sched dur n).2 ≤ fireTime dur k ∧ fireTime dur k ≤ fireTime dur (n + 1))
        ↔ k = n + 1)
    ∧ fireTime dur (n + 1) + tickPeriod ≤ fireTime dur (n + 2) := by
  have hp : tickPeriod = 12 := rfl
  have hsnd := sched_snd dur n
  have hfire : fireTime dur (n + 1) = max ((sched dur n).1 + dur n) ((sched dur n).2) := rfl
  have hfe : fireTime dur (n + 1) = (sched dur n).1 + dur n := by
    rw [hfire]
    exact Nat.max_eq_left (by omega)
  refine ⟨hp, hfe, ?_, fire_succ_ge dur (n + 1)⟩
  intro k
  constructor
  · rintro ⟨hk1, hk2⟩
    by_contra hne
    rcases Nat.lt_or_ge k (n + 1) with hlt | hge
    · have hmono : fireTime dur k ≤ fireTime dur n := fire_mono dur (by omega)
      have hfn : fireTime dur n = (sched dur n).1 := rfl
      omega
    · have hge2 : n + 2 ≤ k := by omega
      have hmono : fireTime dur (n + 2) ≤ fireTime dur k := fire_mono dur hge2
      have hstep := fire_succ_ge dur (n + 1)
      have hee : fireTime dur (n + 1 + 1) = fireTime dur (n + 2) := rfl
      omega
  · intro hk
    subst hk
    have hstep := fire_succ_ge dur n
    have hfn : fireTime dur n = (sched dur n).1 := rfl
    exact ⟨by omega, Nat.le_refl _⟩

theorem c8_witness :
    tickPeriod = 12
    ∧ fireTime (fun t => if t = 0 then 30 else 0) (0 + 1)
        = (sched (fun t => if t = 0 then 30 else 0) 0).1
            + (if (0 : Nat) = 0 then 30 else 0)
    ∧ (∀ k, ((sched (fun t => if t = 0 then 30 else 0) 0).2
          ≤ fireTime (fun t => if t = 0 then 30 else 0) k
        ∧ fireTime (fun t => if t = 0 then 30 else 0) k
          ≤ fireTime (fun t => if t = 0 then 30 else 0) (0 + 1))
        ↔ k = 0 + 1)
    ∧ fireTime (fun t => if t = 0 then 30 else 0) (0 + 1) + tickPeriod
        ≤ fireTime (fun t => if t = 0 then 30 else 0) (0 + 2) :=
  c8_missed_tick_coalescing (fun t => if t = 0 then 30 else 0) 0 1 (by decide) (by decide)

end Blobssss
